import Mathlib

/-!
Verification of the go-deb package reader (pkgfile.go) against its
natural-language specification.  The Go source is shallowly embedded:
byte payloads are modelled as `String` (one `Char` per byte), Go maps as
functions `String → Option String`, fallible or panicking Go code as the
`GoOutcome` type below.  The external decompression libraries and the
nested tar iterator are black-box collaborators, modelled as explicit
function parameters (`Codecs`, `TarLib`, `HashFns`).
-/

set_option maxRecDepth 4096

namespace GoDeb

/-- Outcome of a Go computation: a normal value, a returned `error`, or a
`panic`.  `checkErr` (pkgfile.go:142-147) turns a returned error into a
panic. -/
inductive GoOutcome (α : Type) where
  | ok : α → GoOutcome α
  | err : String → GoOutcome α
  | panic : String → GoOutcome α
  deriving DecidableEq

/-- Embeds `PackageFileReader.checkErr` (pkgfile.go:142-147): any non-nil
error is turned into a panic. -/
def checkErrO {α : Type} : GoOutcome α → GoOutcome α
  | .ok a => .ok a
  | .err e => .panic e
  | .panic e => .panic e

/-! ### Go string primitives used by pkgfile.go -/

/-- Whitespace class of `strings.TrimSpace` (`unicode.IsSpace`, ASCII
range): space, tab, newline, carriage return, vertical tab, form feed. -/
def goWS (c : Char) : Bool :=
  c = ' ' || c = '\t' || c = '\n' || c = '\r' || c = Char.ofNat 11 || c = Char.ofNat 12

/-- Whitespace class of `\s` in the Go regexp package (RE2):
`[\t\n\f\r ]`.  Unlike `goWS` it does not contain the vertical tab. -/
def goRegexpWS (c : Char) : Bool :=
  c = ' ' || c = '\t' || c = '\n' || c = '\r' || c = Char.ofNat 12

/-- Embeds `strings.HasPrefix`. -/
def goStartsWith (s p : String) : Bool := p.data.isPrefixOf s.data

/-- Embeds `strings.HasSuffix`. -/
def goEndsWith (s p : String) : Bool := p.data.isSuffixOf s.data

/-- Embeds `strings.TrimSpace` (ASCII whitespace). -/
def goTrimSpace (s : String) : String :=
  ⟨((s.data.dropWhile goWS).reverse.dropWhile goWS).reverse⟩

/-- Embeds `strings.TrimPrefix(path, "./")` (pkgfile.go:597). -/
def goTrimDotSlash (p : String) : String :=
  if goStartsWith p "./" then ⟨p.data.drop 2⟩ else p

/-- Embeds `strings.ToLower` (ASCII). -/
def goToLower (s : String) : String := ⟨s.data.map Char.toLower⟩

/-- Occurrence test for a pattern inside a character list; backend of
`goContains`. -/
def occursIn (pat : List Char) : List Char → Bool
  | [] => pat.isEmpty
  | c :: rest => pat.isPrefixOf (c :: rest) || occursIn pat rest

/-- Embeds `strings.Contains`. -/
def goContains (s pat : String) : Bool := occursIn pat.data s.data

/-- Embeds `strings.Split(s, sep)` for a one-character separator
(pkgfile.go:495 splits on a single space). -/
def goSplitChar (sep : Char) : List Char → List (List Char)
  | [] => [[]]
  | c :: rest =>
    match goSplitChar sep rest with
    | [] => [[]]
    | g :: gs => if c = sep then [] :: g :: gs else (c :: g) :: gs

/-- Embeds `strings.SplitN(s, sep, 2)` for a one-character separator
(pkgfile.go:553 splits a control line at the first colon). -/
def goSplitN2 (sep : Char) (l : List Char) : List (List Char) :=
  let a := l.takeWhile (fun c => c != sep)
  let b := l.dropWhile (fun c => c != sep)
  if b = [] then [a] else [a, b.tail]

/-- Drops one trailing carriage return, as `bufio.ScanLines` does per line. -/
def stripCRlist (l : List Char) : List Char :=
  if l.getLast? = some '\r' then l.dropLast else l

/-- Embeds the `bufio.Scanner` line loop (`scn.Scan`/`scn.Text`): split on
newline, drop the final empty token, strip one trailing CR per line. -/
def goScanLines (s : String) : List String :=
  let parts := goSplitChar '\n' s.data
  let parts := if parts.getLast? = some [] then parts.dropLast else parts
  parts.map (fun l => (⟨stripCRlist l⟩ : String))

/-! ### Member-name normalization and dispatch (pkgfile.go:264-290) -/

/-- Embeds `strings.ReplaceAll(name, "/", "")` (pkgfile.go:275): with the
empty replacement this removes every slash. -/
def removeSlashes (s : String) : String := ⟨s.data.filter (fun c => c != '/')⟩

/-- Embeds Go `path.Base`: empty path gives "."; trailing slashes are
stripped; everything up to the last remaining slash is dropped; if nothing
remains the result is "/". -/
def pathBase (s : String) : String :=
  if s.data = [] then "." else
  let rev := s.data.reverse.dropWhile (fun c => c == '/')
  let base := (rev.takeWhile (fun c => c != '/')).reverse
  if base = [] then "/" else ⟨base⟩

/-- Embeds the normalization on pkgfile.go:275:
`header.Name = path.Base(strings.ReplaceAll(header.Name, "/", ""))`. -/
def normalizeName (s : String) : String := pathBase (removeSlashes s)

/-- Role of an outer-container member after normalization. -/
inductive MemberRole where
  | control | data | gpg | debianBinary | unrecognized
  deriving DecidableEq

/-- Embeds the dispatch chain of `PackageFileReader.Read`
(pkgfile.go:277-285). -/
def classify (nm : String) : MemberRole :=
  if goStartsWith nm "control." then .control
  else if goStartsWith nm "data." then .data
  else if nm = "_gpgbuilder" then .gpg
  else if nm = "debian-binary" then .debianBinary
  else .unrecognized

/-! ### Data model (pkgfile.go:389-427) -/

/-- Hash identifiers (pkgfile.go:29-33). -/
def HASH_MD5 : Nat := 0
/-- Hash identifier for SHA1. -/
def HASH_SHA1 : Nat := 1
/-- Hash identifier for SHA256. -/
def HASH_SHA256 : Nat := 2

/-- A Go `map[string]string`; absent keys map to `none` (Go zero value ""
is applied at the lookup sites that need it). -/
def StrMap : Type := String → Option String

/-- Go map assignment `m[k] = v`. -/
def mapInsert (k v : String) (m : StrMap) : StrMap :=
  fun x => if x = k then some v else m x

/-- Empty Go map. -/
def emptyStrMap : StrMap := fun _ => none

/-- One entry of the nested tar container, as surfaced by the black-box
`tar.Reader`: the header fields read by pkgfile.go plus the content bytes
that `io.Copy` would drain for this entry. -/
structure TarHeader where
  name : String
  typeflag : Char
  mode : Int
  size : Int
  modTime : Int
  uname : String
  gname : String
  linkname : String
  content : String
  deriving DecidableEq

/-- `tar.TypeReg` = ASCII zero. -/
def tarTypeReg : Char := Char.ofNat 48

/-- Embeds `FileInfo` as filled in by `PackageFile.addFileInfo`
(pkgfile.go:503-514).  The `header.FileInfo().Mode()` conversion is kept
as the raw tar mode bits; no claim depends on the `os.FileMode` encoding. -/
structure FileInfo where
  name : String
  mode : Int
  size : Int
  modTime : Int
  owner : String
  group : String
  linkname : String
  deriving DecidableEq

/-- Embeds the `PackageFile` aggregate (pkgfile.go:389-412).  The four
auxiliary descriptors (symbols, shlibs, triggers, conffiles) are parsed by
code outside src/; following the spec they are external collaborators that
receive a raw blob, so the model stores the forwarded raw bytes. -/
structure PackageFile where
  debVersion : String
  preinst : String
  prerm : String
  postinst : String
  postrm : String
  gpgbuilder : String
  controlFields : List (String × String)
  symbolsRaw : String
  shlibsRaw : String
  triggersRaw : String
  conffilesRaw : String
  files : List FileInfo
  fileMd5Checksums : StrMap
  fileCalculatedChecksums : StrMap

/-- Embeds `NewPackageFile` (pkgfile.go:415-427): empty stores everywhere. -/
def newPackageFile : PackageFile :=
  ⟨"", "", "", "", "", "", [], "", "", "", "", [], emptyStrMap, emptyStrMap⟩

/-- Embeds `PackageFile.addFileInfo` (pkgfile.go:503-514). -/
def addFileInfo (st : PackageFile) (hdr : TarHeader) : PackageFile :=
  { st with files := st.files ++
      [⟨hdr.name, hdr.mode, hdr.size, hdr.modTime, hdr.uname, hdr.gname, hdr.linkname⟩] }

/-- Embeds `PackageFile.SetCalculatedChecksum` (pkgfile.go:650-655): an
empty sum is discarded. -/
def setCalculatedChecksum (st : PackageFile) (p sum : String) : PackageFile :=
  if sum = "" then st
  else { st with fileCalculatedChecksums := mapInsert p sum st.fileCalculatedChecksums }

/-! ### Checksum engine (pkgfile.go:292-387) -/

/-- The three hash primitives; black-box cryptographic collaborators. -/
structure HashFns where
  md5 : String → String
  sha1 : String → String
  sha256 : String → String

/-- A read-only file system: path to contents, for `Checksum.compute`
reopening the package by path. -/
def FileSys : Type := String → Option String

/-- Embeds the `Checksum` struct (pkgfile.go:297-301).  Faithful to the
source, it holds only a path, an optional in-memory payload and the hash
selector: there is no field that could cache a computed digest. -/
structure Checksum where
  path : String
  payload : Option String
  hash : Nat

/-- Embeds `NewChecksum` (pkgfile.go:304-308). -/
def newChecksum (p : String) : Checksum := ⟨p, none, 0⟩

/-- Embeds `NewBytesChecksum` (pkgfile.go:310-314). -/
def newBytesChecksum (d : String) : Checksum := ⟨"", some d, 0⟩

/-- Embeds `Checksum.SetHash` (pkgfile.go:316-324): the switch accepts
only the three known identifiers and panics otherwise. -/
def checksumSetHash (h : Nat) : GoOutcome Nat :=
  if h = HASH_MD5 ∨ h = HASH_SHA1 ∨ h = HASH_SHA256 then .ok h
  else .panic "Unknown hash"

/-- Embeds `Checksum.compute` (pkgfile.go:327-348).  The second component
counts full traversals of the source bytes (the `io.Copy` into the hash
state); it is the observable that distinguishes recomputation from a
cached read, and every call that reaches `io.Copy` contributes one. -/
def Checksum.compute (fs : FileSys) (hfn : String → String) (cs : Checksum) :
    GoOutcome String × Nat :=
  match cs.payload with
  | some pl => (.ok (hfn pl), 1)
  | none =>
    if cs.path = "" then (.err "No path has been defined", 0)
    else
      match fs cs.path with
      | none => (.err "open failed", 0)
      | some content => (.ok (hfn content), 1)

/-- Embeds `Checksum.MD5` (pkgfile.go:369-375): panics on a compute error. -/
def Checksum.MD5 (fs : FileSys) (H : HashFns) (cs : Checksum) : GoOutcome String × Nat :=
  match cs.compute fs H.md5 with
  | (.ok s, n) => (.ok s, n)
  | (.err e, n) => (.panic e, n)
  | (.panic e, n) => (.panic e, n)

/-- Embeds `Checksum.SHA1` (pkgfile.go:360-366). -/
def Checksum.SHA1 (fs : FileSys) (H : HashFns) (cs : Checksum) : GoOutcome String × Nat :=
  match cs.compute fs H.sha1 with
  | (.ok s, n) => (.ok s, n)
  | (.err e, n) => (.panic e, n)
  | (.panic e, n) => (.panic e, n)

/-- Embeds `Checksum.SHA256` (pkgfile.go:351-357). -/
def Checksum.SHA256 (fs : FileSys) (H : HashFns) (cs : Checksum) : GoOutcome String × Nat :=
  match cs.compute fs H.sha256 with
  | (.ok s, n) => (.ok s, n)
  | (.err e, n) => (.panic e, n)
  | (.panic e, n) => (.panic e, n)

/-- Embeds `Checksum.Sum` (pkgfile.go:377-387): switch over the selector,
defaulting to MD5. -/
def Checksum.Sum (fs : FileSys) (H : HashFns) (cs : Checksum) : GoOutcome String × Nat :=
  if cs.hash = HASH_MD5 then cs.MD5 fs H
  else if cs.hash = HASH_SHA1 then cs.SHA1 fs H
  else if cs.hash = HASH_SHA256 then cs.SHA256 fs H
  else cs.MD5 fs H

/-- Embeds `NewBytesChecksum(data).SetHash(hash).Sum()` (pkgfile.go:203).
The payload is set, so `compute` never touches the file system. -/
def bytesChecksumSum (H : HashFns) (hash : Nat) (data : String) : GoOutcome String :=
  match checksumSetHash hash with
  | .ok h => (Checksum.Sum (fun _ => none) H { newBytesChecksum data with hash := h }).1
  | .err e => .panic e
  | .panic e => .panic e

/-- Repeated querying of the package-level MD5 on the same `Checksum`
value, accumulating results and the total number of source traversals. -/
def Checksum.queryMD5Times (fs : FileSys) (H : HashFns) (cs : Checksum) :
    Nat → List (GoOutcome String) × Nat
  | 0 => ([], 0)
  | Nat.succ n =>
    let q := cs.MD5 fs H
    let r := cs.queryMD5Times fs H n
    (q.1 :: r.1, q.2 + r.2)

/-! ### Reader configuration (pkgfile.go:35-54, 110-139) -/

/-- Embeds `PackageOptions` (pkgfile.go:35-48). -/
structure PackageOptions where
  MetaOnly : Bool
  Hash : Nat
  RecalculateChecksums : Bool
  deriving DecidableEq

/-- Embeds the configuration-bearing part of `PackageFileReader`
(pkgfile.go:111-117); the stream and ar cursor live outside the state. -/
structure PackageFileReader where
  metaonly : Bool
  hash : Nat
  deriving DecidableEq

/-- Embeds `NewPackageFileReader` (pkgfile.go:120-128): `metaonly` starts
true, `hash` at its zero value. -/
def newPackageFileReader : PackageFileReader := ⟨true, 0⟩

/-- Embeds `PackageFileReader.SetMetaonly` (pkgfile.go:130-133). -/
def readerSetMetaonly (b : Bool) (r : PackageFileReader) : PackageFileReader :=
  { r with metaonly := b }

/-- Embeds `PackageFileReader.SetHash` (pkgfile.go:136-139): the value is
stored without any validation and the call always succeeds. -/
def readerSetHash (h : Nat) (r : PackageFileReader) : PackageFileReader :=
  { r with hash := h }

/-- Embeds the reader configuration performed by `openPackagePath` /
`openPackageURL` (pkgfile.go:81,98):
`NewPackageFileReader(f).SetMetaonly(opts.MetaOnly).SetHash(opts.Hash)`.
`RecalculateChecksums` is never consulted. -/
def readerFromOpts (o : PackageOptions) : PackageFileReader :=
  readerSetHash o.Hash (readerSetMetaonly o.MetaOnly newPackageFileReader)

/-! ### Decompression dispatch (pkgfile.go:150-170, 437-488) -/

/-- The gzip header validation performed by `gzip.NewReader` (RFC 1952):
a ten-byte header whose first bytes are the magic 0x1f 0x8b followed by
compression method 8. -/
def gzipHeaderOk (data : String) : Bool :=
  match data.data with
  | b1 :: b2 :: b3 :: _ =>
      b1 = Char.ofNat 0x1f && b2 = Char.ofNat 0x8b && b3 = Char.ofNat 8 &&
        decide (10 ≤ data.data.length)
  | _ => false

/-- Embeds `PackageFile.unGzip` (pkgfile.go:474-488): when
`gzip.NewReader` rejects the stream the function panics; a failure of the
subsequent `ioutil.ReadAll` (truncated or corrupt body, abstracted by the
`inflate` collaborator) is returned as an error. -/
def unGzip (inflate : String → Except String String) (data : String) : GoOutcome String :=
  if gzipHeaderOk data then
    match inflate data with
    | .ok out => .ok out
    | .error e => .err e
  else .panic "gzip: invalid header"

/-- The four decompression capabilities used by `decompressTar`; apart
from the gzip path, whose header handling is embedded in `unGzip`, they
are black-box collaborators that yield bytes, an error or a panic
(pkgfile.go:437-471: unXz panics on a bad header, unBzip and unLzma
return read errors). -/
structure Codecs where
  gz : String → GoOutcome String
  xz : String → GoOutcome String
  bz2 : String → GoOutcome String
  lzma : String → GoOutcome String

/-- Builds the codec table with `unGzip` on the gzip slot. -/
def mkCodecs (inflate : String → Except String String)
    (xzf bz2f lzmaf : String → GoOutcome String) : Codecs :=
  ⟨unGzip inflate, xzf, bz2f, lzmaf⟩

/-- Embeds `PackageFileReader.decompressTar` (pkgfile.go:150-170): the
member payload is drained, then an ordered suffix check selects the codec
and `checkErr` panics on any returned decode error; a name matching no
suffix leaves the tar buffer empty. -/
def decompressTar (C : Codecs) (name data : String) : GoOutcome String :=
  if goEndsWith name ".gz" then checkErrO (C.gz data)
  else if goEndsWith name ".xz" then checkErrO (C.xz data)
  else if goEndsWith name ".bz2" then checkErrO (C.bz2 data)
  else if goEndsWith name ".lzma" then checkErrO (C.lzma data)
  else .ok ""

/-- The black-box `tar.Reader` collaborator: the sequence of entries of a
decompressed payload. -/
structure TarLib where
  entries : String → List TarHeader

/-! ### Declared checksums (pkgfile.go:491-500, 596-598) -/

/-- Collapses each maximal run of RE2 whitespace (`goRegexpWS`) into a
single space: the effect of `sfx.ReplaceAllString(line, " ")` with
`sfx = \s+|\t+` (pkgfile.go:492-495). -/
def collapseWSAux : Bool → List Char → List Char
  | _, [] => []
  | prev, c :: rest =>
    if goRegexpWS c then
      if prev then collapseWSAux true rest
      else ' ' :: collapseWSAux true rest
    else c :: collapseWSAux false rest

/-- Whitespace collapsing starting outside a run. -/
def collapseWS (l : List Char) : List Char := collapseWSAux false l

/-- Embeds one iteration of the `parseMd5Sums` scanner loop
(pkgfile.go:494-499): the collapsed line must split into exactly two
tokens and the first must be 32 characters long; accepted lines store the
second token verbatim as the key. -/
def parseMd5Line (m : StrMap) (line : String) : StrMap :=
  match goSplitChar ' ' (collapseWS line.data) with
  | [a, b] => if a.length = 32 then mapInsert ⟨b⟩ ⟨a⟩ m else m
  | _ => m

/-- The acceptance test of `parseMd5Line`, exposed for stating the skip
behaviour. -/
def md5LineAccepted (line : String) : Bool :=
  match goSplitChar ' ' (collapseWS line.data) with
  | [a, _] => a.length == 32
  | _ => false

/-- Embeds `PackageFile.parseMd5Sums` (pkgfile.go:491-500). -/
def parseMd5Sums (data : String) (m : StrMap) : StrMap :=
  (goScanLines data).foldl parseMd5Line m

/-- Embeds `PackageFile.GetFileMd5Sums` (pkgfile.go:596-598): the leading
"./" is stripped from the query argument, and a missing key yields the Go
zero value "". -/
def getFileMd5Sums (m : StrMap) (p : String) : String :=
  (m (goTrimDotSlash p)).getD ""

/-! ### Control-text parser (pkgfile.go:537-558) -/

/-- The two `ControlFile` mutators invoked by `parseControlFile`.  Their
bodies live outside src/, so the fold is parameterized over them; the
claims about the fold hold for every implementation. -/
structure ControlOps (σ : Type) where
  setField : List String → σ → σ
  addToField : String → String → σ → σ

/-- Embeds one iteration of the `parseControlFile` scanner loop
(pkgfile.go:543-557): a line whose trimmed content starts with "#" is
dropped; a line starting with space or tab is a continuation of the
current field; any other line is split at the first colon and becomes the
new current field.  The accumulator carries (currentName, state). -/
def controlStep {σ : Type} (ops : ControlOps σ) (acc : String × σ) (line : String) :
    String × σ :=
  if goStartsWith (goTrimSpace line) "#" then acc
  else if goStartsWith line " " || goStartsWith line "\t" then
    (acc.1, ops.addToField acc.1 line acc.2)
  else
    let nd := goSplitN2 ':' line.data
    ((⟨nd.headD []⟩ : String), ops.setField (nd.map (fun l => (⟨l⟩ : String))) acc.2)

/-- The scanner loop of `parseControlFile` over a list of lines. -/
def controlFold {σ : Type} (ops : ControlOps σ) : List String → String × σ → String × σ
  | [], acc => acc
  | l :: ls, acc => controlFold ops ls (controlStep ops acc l)

/-- Embeds `PackageFile.parseControlFile` (pkgfile.go:537-558):
`currentName` starts at its zero value "". -/
def parseControlFile {σ : Type} (ops : ControlOps σ) (data : String) (cf : σ) : σ :=
  (controlFold ops (goScanLines data) ("", cf)).2

/-- Modelled from the spec: `ControlFile.setField` is not in src/.  Spec
4.4 rule 3 makes the token before the first colon the field name; the
model stores the remainder as the value, overwriting in place and
otherwise appending in insertion order. -/
def cfSet (nameval : List String) (cf : List (String × String)) : List (String × String) :=
  match nameval with
  | [n, v] =>
      if (cf.map Prod.fst).contains n
      then cf.map (fun kv => if kv.1 = n then (n, v) else kv)
      else cf ++ [(n, v)]
  | [n] =>
      if (cf.map Prod.fst).contains n
      then cf.map (fun kv => if kv.1 = n then (n, "") else kv)
      else cf ++ [(n, "")]
  | _ => cf

/-- Modelled from the spec: `ControlFile.addToField` is not in src/.  Spec
4.4 rule 2 appends the continuation line, joined with a newline, to the
current field; rule 4 drops a continuation with no current field. -/
def cfAdd (cur line : String) (cf : List (String × String)) : List (String × String) :=
  if (cf.map Prod.fst).contains cur
  then cf.map (fun kv => if kv.1 = cur then (kv.1, kv.2 ++ "\n" ++ line) else kv)
  else cf

/-- The modelled `ControlFile` operations as a `ControlOps` instance. -/
def controlOpsModel : ControlOps (List (String × String)) := ⟨cfSet, cfAdd⟩

/-! ### Member processors and the read loop (pkgfile.go:172-290) -/

/-- Embeds the `switch hdr.Name[2:]` body of `processControlFile`
(pkgfile.go:231-258).  Go slicing `hdr.Name[2:]` panics when the name is
shorter than two bytes.  The symbols/shlibs/triggers/conffiles parsers are
external collaborators; the state keeps the raw blob forwarded to them. -/
def controlSwitch (hdrName content : String) (st : PackageFile) : GoOutcome PackageFile :=
  if hdrName.data.length < 2 then .panic "slice bounds out of range"
  else
    let key : String := ⟨hdrName.data.drop 2⟩
    if key = "postinst" then .ok { st with postinst := content }
    else if key = "postrm" then .ok { st with postrm := content }
    else if key = "preinst" then .ok { st with preinst := content }
    else if key = "prerm" then .ok { st with prerm := content }
    else if key = "md5sums" then
      .ok { st with fileMd5Checksums := parseMd5Sums content st.fileMd5Checksums }
    else if key = "control" then
      .ok { st with controlFields := parseControlFile controlOpsModel content st.controlFields }
    else if key = "symbols" then .ok { st with symbolsRaw := content }
    else if key = "shlibs" then .ok { st with shlibsRaw := content }
    else if key = "triggers" then .ok { st with triggersRaw := content }
    else if key = "conffiles" then .ok { st with conffilesRaw := content }
    else .ok st

/-- The entry loop of `processControlFile` (pkgfile.go:221-260): only
regular entries are consumed. -/
def controlWalk : List TarHeader → PackageFile → GoOutcome PackageFile
  | [], st => .ok st
  | hdr :: rest, st =>
    if hdr.typeflag = tarTypeReg then
      match controlSwitch hdr.name hdr.content st with
      | .ok st2 => controlWalk rest st2
      | .err e => .panic e
      | .panic e => .panic e
    else controlWalk rest st

/-- Embeds `PackageFileReader.processControlFile` (pkgfile.go:218-261). -/
def processControlFile (C : Codecs) (T : TarLib) (name data : String)
    (st : PackageFile) : GoOutcome PackageFile :=
  match decompressTar C name data with
  | .ok tb => controlWalk (T.entries tb) st
  | .err e => .panic e
  | .panic e => .panic e

/-- The entry loop of `processDataFile` (pkgfile.go:189-205): every entry
contributes a `FileInfo`; regular entries additionally get their content
hashed and recorded. -/
def dataWalk (H : HashFns) (hash : Nat) : List TarHeader → PackageFile → GoOutcome PackageFile
  | [], st => .ok st
  | hdr :: rest, st =>
    let st1 := addFileInfo st hdr
    if hdr.typeflag = tarTypeReg then
      match bytesChecksumSum H hash hdr.content with
      | .ok sum => dataWalk H hash rest (setCalculatedChecksum st1 hdr.name sum)
      | .err e => .panic e
      | .panic e => .panic e
    else dataWalk H hash rest st1

/-- Embeds `PackageFileReader.processDataFile` (pkgfile.go:182-206): in
metaonly mode the function returns before the payload is even
decompressed. -/
def processDataFile (C : Codecs) (T : TarLib) (H : HashFns) (metaonly : Bool)
    (hash : Nat) (name data : String) (st : PackageFile) : GoOutcome PackageFile :=
  if metaonly then .ok st
  else
    match decompressTar C name data with
    | .ok tb => dataWalk H hash (T.entries tb) st
    | .err e => .panic e
    | .panic e => .panic e

/-- An outer-container member: name plus drained payload bytes. -/
structure ArMember where
  name : String
  data : String
  deriving DecidableEq

/-- Embeds the per-member body of `PackageFileReader.Read`
(pkgfile.go:273-286): normalize the name, then dispatch on the role.
GpgBuilder and debian-binary members (pkgfile.go:173-179, 209-215) store
the trimmed payload. -/
def processMember (C : Codecs) (T : TarLib) (H : HashFns) (metaonly : Bool)
    (hash : Nat) (m : ArMember) (st : PackageFile) : GoOutcome PackageFile :=
  let nm := normalizeName m.name
  match classify nm with
  | .control => processControlFile C T nm m.data st
  | .data => processDataFile C T H metaonly hash nm m.data st
  | .gpg => .ok { st with gpgbuilder := goTrimSpace m.data }
  | .debianBinary => .ok { st with debVersion := goTrimSpace m.data }
  | .unrecognized => .ok st

/-- The member loop of `PackageFileReader.Read` (pkgfile.go:264-290) over
a list of successfully read ar members. -/
def readFold (C : Codecs) (T : TarLib) (H : HashFns) (metaonly : Bool) (hash : Nat) :
    List ArMember → PackageFile → GoOutcome PackageFile
  | [], st => .ok st
  | m :: ms, st =>
    match processMember C T H metaonly hash m st with
    | .ok st2 => readFold C T H metaonly hash ms st2
    | .err e => .panic e
    | .panic e => .panic e

/-- `PackageFileReader.Read` starting from `NewPackageFile`. -/
def readModel (C : Codecs) (T : TarLib) (H : HashFns) (metaonly : Bool) (hash : Nat)
    (ms : List ArMember) : GoOutcome PackageFile :=
  readFold C T H metaonly hash ms newPackageFile

/-! ### URI dispatch (pkgfile.go:56-67) -/

/-- Which acquisition branch `OpenPackageFile` takes. -/
inductive Branch where
  | url | localPath
  deriving DecidableEq

/-- Embeds the branch condition of `OpenPackageFile` (pkgfile.go:60):
`strings.Contains(uri, "://") && strings.HasPrefix(strings.ToLower(uri), "http")`. -/
def openBranch (uri : String) : Branch :=
  if goContains uri "://" && goStartsWith (goToLower uri) "http" then .url else .localPath

/-! ### Concrete collaborator instances used by witnesses -/

/-- Trivial codecs: every decoder succeeds and returns its input. -/
def Ctriv : Codecs := ⟨fun d => .ok d, fun d => .ok d, fun d => .ok d, fun d => .ok d⟩

/-- A sample regular tar entry. -/
def hdr0 : TarHeader := ⟨"./etc/a", tarTypeReg, 420, 5, 0, "root", "root", "", "hello"⟩

/-- A tar collaborator whose every payload contains exactly `hdr0`. -/
def Ttriv : TarLib := ⟨fun _ => [hdr0]⟩

/-- A tar collaborator with no entries for any payload (in particular for
the empty payload, as the Go tar reader yields EOF at once on it). -/
def Tempty : TarLib := ⟨fun _ => []⟩

/-- Identity-style hash functions for witnesses. -/
def Htriv : HashFns := ⟨fun s => s, fun s => s, fun s => s⟩

/-- An empty file system. -/
def fsEmpty : FileSys := fun _ => none

/-- Codecs built from `unGzip` with an inflate collaborator that succeeds
on everything the header check lets through. -/
def CgzReal : Codecs :=
  mkCodecs (fun d => Except.ok d)
    (fun _ => GoOutcome.ok "") (fun _ => GoOutcome.ok "") (fun _ => GoOutcome.ok "")

/-- Two NUL bytes: not a gzip stream. -/
def badGz : String := ⟨[Char.ofNat 0, Char.ofNat 0]⟩

/-- Projects the length of the file inventory out of a read outcome. -/
def filesLen : GoOutcome PackageFile → Option Nat
  | .ok st => some st.files.length
  | _ => none

/-! ## Theorems -/

/-- A take of everything: `takeWhile` is the identity when the predicate
holds on every element. -/
theorem takeWhile_all {p : Char → Bool} :
    ∀ (l : List Char), (∀ c ∈ l, p c = true) → l.takeWhile p = l := by
  intro l h
  induction l with
  | nil => rfl
  | cons c rest ih =>
    rw [List.takeWhile_cons, h c (List.mem_cons_self c rest)]
    exact congrArg (List.cons c) (ih fun x hx => h x (List.mem_cons_of_mem c hx))

/-- `pathBase` is the identity on nonempty slash-free strings. -/
theorem pathBase_noslash (t : String) (hne : t.data ≠ [])
    (hns : ∀ c ∈ t.data, (c != '/') = true) : pathBase t = t := by
  have hrevmem : ∀ c ∈ t.data.reverse, (c != '/') = true := by
    intro c hc
    exact hns c (List.mem_reverse.mp hc)
  have hrev : t.data.reverse.dropWhile (fun c => c == '/') = t.data.reverse := by
    cases hr : t.data.reverse with
    | nil => rfl
    | cons c r =>
      have hc : (c != '/') = true := by
        apply hrevmem
        rw [hr]
        exact List.mem_cons_self c r
      have hc2 : (c == '/') = false := by
        cases hcc : c == '/' with
        | false => rfl
        | true => simp [bne, hcc] at hc
      rw [List.dropWhile_cons, hc2]
      simp
  have htake : (t.data.reverse.dropWhile (fun c => c == '/')).takeWhile
      (fun c => c != '/') = t.data.reverse := by
    rw [hrev]
    exact takeWhile_all _ hrevmem
  unfold pathBase
  rw [if_neg hne]
  simp only [htake, List.reverse_reverse]
  rw [if_neg hne]

/-- Claim C1.  The claim reads: for every archive member whose recognized
compression suffix carries a payload that fails to decode, the read
surfaces a structured FormatViolation error and never terminates
abruptly.  The code does the opposite: `unGzip` panics when
`gzip.NewReader` rejects the stream, and `checkErr` converts every
returned decode error into a panic, so a corrupt member aborts the read
via panic instead of returning an error.  Evaluated here on a
`control.tar.gz` member whose payload is two NUL bytes. -/
theorem unGzip_corrupt_panics :
    decompressTar CgzReal "control.tar.gz" badGz = GoOutcome.panic "gzip: invalid header" ∧
    checkErrO (GoOutcome.err "truncated stream" : GoOutcome String) =
      GoOutcome.panic "truncated stream" := by
  exact ⟨by decide, rfl⟩

/-- Claim C3.  The claim reads: in metadata-only mode a FileRecord is still
built for every entry of the data container and only content
reading/hashing is skipped.  The code instead returns from
`processDataFile` before the payload is even decompressed, so no
FileRecord is ever appended: the state is returned untouched although the
tar collaborator would yield an entry (`Ttriv.entries` is nonempty), and
the same input with metaonly off does append one record. -/
theorem processDataFile_metaonly_bails :
    (∀ (C : Codecs) (T : TarLib) (H : HashFns) (hash : Nat) (name data : String)
        (st : PackageFile),
        processDataFile C T H true hash name data st = GoOutcome.ok st) ∧
    Ttriv.entries "x" = [hdr0] ∧
    filesLen (processDataFile Ctriv Ttriv Htriv true 0 "data.tar.gz" "x" newPackageFile) =
      some 0 ∧
    filesLen (processDataFile Ctriv Ttriv Htriv false 0 "data.tar.gz" "x" newPackageFile) =
      some 1 := by
  exact ⟨fun _ _ _ _ _ _ _ => rfl, rfl, rfl, rfl⟩

/-- Claim C5 counterexample.  The claim reads: configuring an unsupported hash
identifier raises a ConfigurationError immediately when the option is set
on the reader.  In the code `PackageFileReader.SetHash` stores the value
without validation and succeeds; the rejection only happens later, as a
panic inside `Checksum.SetHash` during the first per-file checksum
computation. -/
theorem setHash_deferred_counterexample :
    readerSetHash 99 ⟨true, 0⟩ = ⟨true, 99⟩ ∧
    checksumSetHash 99 = GoOutcome.panic "Unknown hash" ∧
    processDataFile Ctriv Ttriv Htriv false 99 "data.tar.gz" "x" newPackageFile =
      GoOutcome.panic "Unknown hash" := by
  exact ⟨rfl, by decide, rfl⟩

/-- Claim C5 amended.  `PackageFileReader.SetHash` performs no validation and
always yields the reader with the hash field overwritten; an unsupported
identifier is rejected only by `Checksum.SetHash`, as a panic, at the
first per-file checksum computation, while a supported identifier is
accepted there. -/
theorem setHash_no_validation (h : Nat) (r : PackageFileReader) :
    readerSetHash h r = { r with hash := h } ∧
    (¬(h = HASH_MD5 ∨ h = HASH_SHA1 ∨ h = HASH_SHA256) →
      checksumSetHash h = GoOutcome.panic "Unknown hash") ∧
    ((h = HASH_MD5 ∨ h = HASH_SHA1 ∨ h = HASH_SHA256) →
      checksumSetHash h = GoOutcome.ok h) := by
  refine ⟨rfl, ?_, ?_⟩
  · intro hh
    unfold checksumSetHash
    rw [if_neg hh]
  · intro hh
    unfold checksumSetHash
    rw [if_pos hh]

/-- Witness for the C5 amended theorem at hash identifier 99. -/
theorem setHash_no_validation_witness :
    readerSetHash 99 ⟨true, 0⟩ = ⟨true, 99⟩ ∧
    checksumSetHash 99 = GoOutcome.panic "Unknown hash" :=
  ⟨(setHash_no_validation 99 ⟨true, 0⟩).1,
   (setHash_no_validation 99 ⟨true, 0⟩).2.1 (by decide)⟩

/-- Claim C9 counterexample.  The claim reads: the package-level checksum is
cached per kind, so repeated queries of the same kind do not recompute.
The `Checksum` struct has no cache field and `MD5` unconditionally calls
`compute`, so two MD5 queries traverse the source twice (not at most
once); the returned values do agree. -/
theorem checksum_recompute_counterexample :
    (Checksum.queryMD5Times fsEmpty Htriv (newBytesChecksum "abc") 2).2 = 2 ∧
    ¬((Checksum.queryMD5Times fsEmpty Htriv (newBytesChecksum "abc") 2).2 ≤ 1) ∧
    (Checksum.queryMD5Times fsEmpty Htriv (newBytesChecksum "abc") 2).1 =
      [GoOutcome.ok "abc", GoOutcome.ok "abc"] := by
  exact ⟨by decide, by decide, by decide⟩

/-- Claim C9 amended.  The package-level `Checksum` object stores no digests:
each MD5 access recomputes from the source, so n queries perform exactly
n full source traversals; the computation is deterministic, so every
query returns the same value. -/
theorem checksum_recompute_amended (fs : FileSys) (H : HashFns) (cs : Checksum)
    (pl : String) (n : Nat) (hpl : cs.payload = some pl) :
    (cs.queryMD5Times fs H n).2 = n ∧
    (cs.queryMD5Times fs H n).1 = List.replicate n (GoOutcome.ok (H.md5 pl)) := by
  have hq : cs.MD5 fs H = (GoOutcome.ok (H.md5 pl), 1) := by
    unfold Checksum.MD5 Checksum.compute
    rw [hpl]
  induction n with
  | zero => exact ⟨rfl, rfl⟩
  | succ n ih =>
    unfold Checksum.queryMD5Times
    rw [hq]
    refine ⟨?_, ?_⟩
    · simp [ih.1]
      omega
    · simp [ih.2, List.replicate_succ]

/-- Witness for the C9 amended theorem: three queries on an in-memory
payload. -/
theorem checksum_recompute_amended_witness :
    (Checksum.queryMD5Times fsEmpty Htriv (newBytesChecksum "abc") 3).2 = 3 ∧
    (Checksum.queryMD5Times fsEmpty Htriv (newBytesChecksum "abc") 3).1 =
      List.replicate 3 (GoOutcome.ok (Htriv.md5 "abc")) :=
  checksum_recompute_amended fsEmpty Htriv (newBytesChecksum "abc") "abc" 3 rfl

/-- Claim C10.  `OpenPackageFile` takes the HTTP branch exactly when the uri
contains "://" and its lowercased form starts with "http"; any other uri,
including "ftp://host/pkg.deb", is opened as a local filesystem path. -/
theorem openPackageFile_http_dispatch :
    (∀ uri : String, openBranch uri = Branch.url ↔
      (goContains uri "://" = true ∧ goStartsWith (goToLower uri) "http" = true)) ∧
    openBranch "ftp://host/pkg.deb" = Branch.localPath := by
  constructor
  · intro uri
    cases hc : goContains uri "://" <;>
      cases hp : goStartsWith (goToLower uri) "http" <;>
        simp [openBranch, hc, hp]
  · decide

/-- Witness for the C10 theorem at two concrete uris. -/
theorem openPackageFile_http_dispatch_witness :
    openBranch "http://h/p.deb" = Branch.url ∧
    openBranch "ftp://host/pkg.deb" = Branch.localPath :=
  ⟨(openPackageFile_http_dispatch.1 "http://h/p.deb").mpr ⟨by decide, by decide⟩,
   openPackageFile_http_dispatch.2⟩

/-- Claim C2 counterexample.  The claim reads: normalization retains only the
final path segment, so "dir/seg" is classified as "seg".  The code first
removes every slash and only then applies `path.Base`, so "dir/seg"
normalizes to the concatenation "dirseg"; in particular a member named
"sub/data.tar.gz" is not recognized as a data member. -/
theorem normalizeName_counterexample :
    normalizeName "dir/seg" = "dirseg" ∧ ("dirseg" : String) ≠ "seg" ∧
    classify (normalizeName "sub/data.tar.gz") = MemberRole.unrecognized ∧
    classify "data.tar.gz" = MemberRole.data := by
  exact ⟨by decide, by decide, by decide, by decide⟩

/-- Claim C2 amended.  The normalization removes every path separator,
concatenating all segments, and then applies `path.Base`, which on the
resulting slash-free name is the identity (or "." when nothing remains);
classification is applied to that concatenation, not to the final
segment of the original name. -/
theorem normalizeName_amended (s : String) :
    (removeSlashes s = "" → normalizeName s = ".") ∧
    (removeSlashes s ≠ "" → normalizeName s = removeSlashes s) := by
  constructor
  · intro h0
    have hd : (removeSlashes s).data = [] := by rw [h0]
    unfold normalizeName pathBase
    rw [if_pos hd]
  · intro hne
    have hd : (removeSlashes s).data ≠ [] := by
      intro hdd
      exact hne (String.ext hdd)
    unfold normalizeName
    apply pathBase_noslash _ hd
    intro c hc
    have : c ∈ s.data.filter (fun c => c != '/') := hc
    exact (List.mem_filter.mp this).2

/-- Witness for the C2 amended theorem at "dir/seg". -/
theorem normalizeName_amended_witness :
    removeSlashes "dir/seg" ≠ "" ∧
    normalizeName "dir/seg" = removeSlashes "dir/seg" :=
  ⟨by decide, (normalizeName_amended "dir/seg").2 (by decide)⟩

/-- Claim C6.  Decompression dispatch is an ordered suffix check mapping .gz to
the gzip decoder, .xz to xz, .bz2 to bzip2 and .lzma to legacy LZMA (each
behind `checkErr`); a member name matching none of the suffixes yields an
empty tar buffer — so the subsequent walk sees no entries and the data
pass completes without error — rather than an error. -/
theorem decompressTar_dispatch (C : Codecs) (T : TarLib) (H : HashFns) (hash : Nat)
    (st : PackageFile) (name data : String)
    (h1 : goEndsWith name ".gz" = false) (h2 : goEndsWith name ".xz" = false)
    (h3 : goEndsWith name ".bz2" = false) (h4 : goEndsWith name ".lzma" = false)
    (hT : T.entries "" = []) :
    decompressTar C name data = GoOutcome.ok "" ∧
    processDataFile C T H false hash name data st = GoOutcome.ok st ∧
    (∀ n d, goEndsWith n ".gz" = true → decompressTar C n d = checkErrO (C.gz d)) ∧
    (∀ n d, goEndsWith n ".gz" = false → goEndsWith n ".xz" = true →
      decompressTar C n d = checkErrO (C.xz d)) ∧
    (∀ n d, goEndsWith n ".gz" = false → goEndsWith n ".xz" = false →
      goEndsWith n ".bz2" = true → decompressTar C n d = checkErrO (C.bz2 d)) ∧
    (∀ n d, goEndsWith n ".gz" = false → goEndsWith n ".xz" = false →
      goEndsWith n ".bz2" = false → goEndsWith n ".lzma" = true →
      decompressTar C n d = checkErrO (C.lzma d)) := by
  have hdec : decompressTar C name data = GoOutcome.ok "" := by
    simp [decompressTar, h1, h2, h3, h4]
  refine ⟨hdec, ?_, ?_, ?_, ?_, ?_⟩
  · unfold processDataFile
    rw [hdec]
    simp only [Bool.false_eq_true, if_false]
    rw [hT]
    rfl
  · intro n d hn
    simp [decompressTar, hn]
  · intro n d hn1 hn2
    simp [decompressTar, hn1, hn2]
  · intro n d hn1 hn2 hn3
    simp [decompressTar, hn1, hn2, hn3]
  · intro n d hn1 hn2 hn3 hn4
    simp [decompressTar, hn1, hn2, hn3, hn4]

/-- Witness for the C6 theorem: an unmatched suffix yields empty output
and a completed data pass; a .gz name reaches the gzip decoder. -/
theorem decompressTar_dispatch_witness :
    decompressTar Ctriv "member.tar.zst" "abc" = GoOutcome.ok "" ∧
    processDataFile Ctriv Tempty Htriv false 0 "member.tar.zst" "abc" newPackageFile =
      GoOutcome.ok newPackageFile ∧
    decompressTar Ctriv "a.gz" "d" = checkErrO (Ctriv.gz "d") := by
  have h := decompressTar_dispatch Ctriv Tempty Htriv 0 newPackageFile
    "member.tar.zst" "abc" (by decide) (by decide) (by decide) (by decide) rfl
  exact ⟨h.1, h.2.1, h.2.2.1 "a.gz" "d" (by decide)⟩

/-- Claim C7.  A member whose normalized name matches none of the roles is
skipped without error: removing it from the archive leaves the entire
read result unchanged, so the read completes exactly as it would without
the member and every field derived from the recognized members is
populated identically. -/
theorem read_skips_unrecognized (C : Codecs) (T : TarLib) (H : HashFns)
    (mo : Bool) (hash : Nat) (ms₁ ms₂ : List ArMember) (u : ArMember)
    (st : PackageFile)
    (hu : classify (normalizeName u.name) = MemberRole.unrecognized) :
    readFold C T H mo hash (ms₁ ++ u :: ms₂) st =
      readFold C T H mo hash (ms₁ ++ ms₂) st := by
  have hstep : ∀ st2 : PackageFile, processMember C T H mo hash u st2 = GoOutcome.ok st2 := by
    intro st2
    simp only [processMember]
    rw [hu]
  induction ms₁ generalizing st with
  | nil =>
    simp only [List.nil_append]
    conv_lhs => unfold readFold
    rw [hstep]
  | cons m ms ih =>
    simp only [List.cons_append]
    unfold readFold
    cases processMember C T H mo hash m st with
    | ok st2 => exact ih st2
    | err e => rfl
    | panic e => rfl

/-- Witness for the C7 theorem: an archive with a debian-binary member
and an unrecognized member reads the same as without the latter. -/
theorem read_skips_unrecognized_witness :
    readFold Ctriv Tempty Htriv true 0
      [⟨"debian-binary", "2.0"⟩, ⟨"weird.member", "zz"⟩] newPackageFile =
    readFold Ctriv Tempty Htriv true 0
      [⟨"debian-binary", "2.0"⟩] newPackageFile :=
  read_skips_unrecognized Ctriv Tempty Htriv true 0
    [⟨"debian-binary", "2.0"⟩] [] ⟨"weird.member", "zz"⟩ newPackageFile (by decide)

/-- Claim C8.  In control-text parsing, a line whose whitespace-trimmed content
starts with "#" is dropped unconditionally — also when it begins with
whitespace and would otherwise be a continuation of the current field —
so the fold over the lines with the comment line present equals the fold
with it removed, for every implementation of the field operations, and
the line contributes nothing to any field value. -/
theorem parseControl_comment_dropped {σ : Type} (ops : ControlOps σ)
    (ls₁ ls₂ : List String) (acc : String × σ) (c : String)
    (h : goStartsWith (goTrimSpace c) "#" = true) :
    controlFold ops (ls₁ ++ c :: ls₂) acc = controlFold ops (ls₁ ++ ls₂) acc := by
  have hstep : ∀ a : String × σ, controlStep ops a c = a := by
    intro a
    unfold controlStep
    rw [h]
    simp
  induction ls₁ generalizing acc with
  | nil =>
    simp only [List.nil_append]
    conv_lhs => unfold controlFold
    rw [hstep]
  | cons l ls ih =>
    simp only [List.cons_append]
    unfold controlFold
    exact ih (controlStep ops acc l)

/-- Witness for the C8 theorem: a comment line starting with whitespace,
located where a continuation line could follow, is dropped. -/
theorem parseControl_comment_dropped_witness :
    controlFold controlOpsModel ["Package: foo", "  # hidden", " cont"]
      ("", ([] : List (String × String))) =
    controlFold controlOpsModel ["Package: foo", " cont"]
      ("", ([] : List (String × String))) :=
  parseControl_comment_dropped controlOpsModel ["Package: foo"] [" cont"]
    ("", []) "  # hidden" (by decide)

/-- Whitespace collapsing is the identity on text free of RE2
whitespace, from either starting state. -/
theorem collapseWSAux_noWS (l : List Char) (h : ∀ c ∈ l, goRegexpWS c = false) :
    ∀ b, collapseWSAux b l = l := by
  induction l with
  | nil => intro b; rfl
  | cons c rest ih =>
    intro b
    unfold collapseWSAux
    rw [h c (List.mem_cons_self c rest)]
    simp only [Bool.false_eq_true, if_false]
    exact congrArg (List.cons c) (ih (fun x hx => h x (List.mem_cons_of_mem c hx)) false)

/-- A line made of two tokens free of RE2 whitespace joined by a single
space is unchanged by whitespace collapsing. -/
theorem collapseWS_line (h p : List Char) (hh : ∀ c ∈ h, goRegexpWS c = false)
    (hp : ∀ c ∈ p, goRegexpWS c = false) :
    collapseWS (h ++ ' ' :: p) = h ++ ' ' :: p := by
  unfold collapseWS
  induction h with
  | nil =>
    simp only [List.nil_append]
    unfold collapseWSAux
    norm_num [goRegexpWS]
    exact collapseWSAux_noWS p hp true
  | cons c t ih =>
    simp only [List.cons_append]
    unfold collapseWSAux
    rw [hh c (List.mem_cons_self c t)]
    simp only [Bool.false_eq_true, if_false]
    exact congrArg (List.cons c) (ih (fun x hx => hh x (List.mem_cons_of_mem c hx)))

/-- `goSplitChar` yields a single token when the separator is absent. -/
theorem goSplitChar_noSep (sep : Char) (l : List Char) (h : sep ∉ l) :
    goSplitChar sep l = [l] := by
  induction l with
  | nil => rfl
  | cons c rest ih =>
    unfold goSplitChar
    rw [ih (fun hx => h (List.mem_cons_of_mem c hx))]
    have hc : ¬(c = sep) := fun hcc => h (hcc ▸ List.mem_cons_self c rest)
    simp [hc]

/-- `goSplitChar` on two separator-free tokens joined by the separator
yields exactly those two tokens. -/
theorem goSplitChar_two (h p : List Char) (hh : ' ' ∉ h) (hp : ' ' ∉ p) :
    goSplitChar ' ' (h ++ ' ' :: p) = [h, p] := by
  induction h with
  | nil =>
    simp only [List.nil_append]
    unfold goSplitChar
    rw [goSplitChar_noSep ' ' p hp]
    simp
  | cons c t ih =>
    simp only [List.cons_append]
    unfold goSplitChar
    rw [ih (fun hx => hh (List.mem_cons_of_mem c hx))]
    have hc : ¬(c = ' ') := fun hcc => hh (hcc ▸ List.mem_cons_self c t)
    simp [hc]

/-- The last element of a cons whose head is not CR and whose tail is
free of RE2 whitespace is not CR. -/
theorem getLast?_ne_CR (p : List Char) : ∀ (a : Char), ¬(a = '\r') →
    (∀ c ∈ p, goRegexpWS c = false) → (a :: p).getLast? ≠ some '\r' := by
  induction p with
  | nil =>
    intro a ha _
    simp only [List.getLast?_singleton, ne_eq, Option.some.injEq]
    exact ha
  | cons b t ih =>
    intro a _ hp
    rw [List.getLast?_cons_cons]
    have hb : ¬(b = '\r') := by
      intro hbb
      have := hp b (List.mem_cons_self b t)
      rw [hbb] at this
      simp [goRegexpWS] at this
    exact ih b hb (fun x hx => hp x (List.mem_cons_of_mem b hx))

/-- A nonempty single-line input (no newline, no trailing CR) scans to
exactly itself. -/
theorem goScanLines_single (s : String) (hnl : '\n' ∉ s.data) (hne : s.data ≠ [])
    (hcr : s.data.getLast? ≠ some '\r') : goScanLines s = [s] := by
  have h1 : goSplitChar '\n' s.data = [s.data] := goSplitChar_noSep '\n' s.data hnl
  have hiff : ¬([s.data].getLast? = some []) := by
    simp only [List.getLast?_singleton, Option.some.injEq]
    exact hne
  have h2 : stripCRlist s.data = s.data := by
    unfold stripCRlist
    rw [if_neg hcr]
  simp only [goScanLines, h1, if_neg hiff, List.map_cons, List.map_nil, h2]

/-- Claim C4 counterexample.  The claim reads: accepted md5sums lines populate
the declared store under the second token with any leading "./" stripped,
and `GetFileMd5Sums` on that path returns the hash.  The code stores the
token verbatim and instead strips "./" from the lookup argument, so a
"./"-prefixed token is stored unstripped and is unreachable through
`GetFileMd5Sums` under either spelling of the path. -/
theorem parseMd5Sums_dotslash_counterexample :
    parseMd5Sums "d41d8cd98f00b204e9800998ecf8427e ./usr/bin/foo" emptyStrMap
      "usr/bin/foo" = none ∧
    parseMd5Sums "d41d8cd98f00b204e9800998ecf8427e ./usr/bin/foo" emptyStrMap
      "./usr/bin/foo" = some "d41d8cd98f00b204e9800998ecf8427e" ∧
    getFileMd5Sums (parseMd5Sums "d41d8cd98f00b204e9800998ecf8427e ./usr/bin/foo"
      emptyStrMap) "./usr/bin/foo" = "" ∧
    getFileMd5Sums (parseMd5Sums "d41d8cd98f00b204e9800998ecf8427e ./usr/bin/foo"
      emptyStrMap) "usr/bin/foo" = "" := by
  exact ⟨by decide, by decide, by decide, by decide⟩

/-- Claim C4 amended.  A line that collapses to exactly two tokens with a
32-character first token populates the declared store under the second
token kept verbatim; `GetFileMd5Sums` strips a leading "./" from its
argument before the lookup, so for a token without that prefix it returns
exactly the hash — and it does so regardless of `RecalculateChecksums`,
which the reader configuration never consults.  Any other line is skipped
silently without touching the store. -/
theorem parseMd5Sums_amended :
    (∀ (m : StrMap) (hs ps : String),
      (∀ c ∈ hs.data, goRegexpWS c = false) → (∀ c ∈ ps.data, goRegexpWS c = false) →
      hs.data.length = 32 →
      parseMd5Sums (hs ++ " " ++ ps) m ps = some hs ∧
      (goStartsWith ps "./" = false →
        getFileMd5Sums (parseMd5Sums (hs ++ " " ++ ps) m) ps = hs)) ∧
    (∀ (m : StrMap) (line : String),
      md5LineAccepted line = false → parseMd5Line m line = m) ∧
    (∀ (mo : Bool) (hh : Nat) (b1 b2 : Bool),
      readerFromOpts ⟨mo, hh, b1⟩ = readerFromOpts ⟨mo, hh, b2⟩) := by
  refine ⟨?_, ?_, ?_⟩
  · intro m hs ps hwh hwp hlen
    have hdata : (hs ++ " " ++ ps).data = hs.data ++ ' ' :: ps.data := by
      rw [String.data_append, String.data_append]
      simp
    have hnl : '\n' ∉ (hs ++ " " ++ ps).data := by
      rw [hdata]
      intro hmem
      rcases List.mem_append.mp hmem with hin | hin
      · have := hwh '\n' hin
        simp [goRegexpWS] at this
      · rcases List.mem_cons.mp hin with heq | hin2
        · exact absurd heq (by decide)
        · have := hwp '\n' hin2
          simp [goRegexpWS] at this
    have hne : (hs ++ " " ++ ps).data ≠ [] := by
      rw [hdata]
      intro hempty
      have : (hs.data ++ ' ' :: ps.data).length = 0 := by rw [hempty]; rfl
      simp at this
    have hcr : (hs ++ " " ++ ps).data.getLast? ≠ some '\r' := by
      rw [hdata, List.getLast?_append_cons]
      exact getLast?_ne_CR ps.data ' ' (by decide) hwp
    have hscan : goScanLines (hs ++ " " ++ ps) = [hs ++ " " ++ ps] :=
      goScanLines_single _ hnl hne hcr
    have hspno : ' ' ∉ hs.data := fun hx => by
      have := hwh ' ' hx
      simp [goRegexpWS] at this
    have hspnp : ' ' ∉ ps.data := fun hx => by
      have := hwp ' ' hx
      simp [goRegexpWS] at this
    have hline : parseMd5Line m (hs ++ " " ++ ps) = mapInsert ps hs m := by
      unfold parseMd5Line
      rw [hdata, collapseWS_line hs.data ps.data hwh hwp,
        goSplitChar_two hs.data ps.data hspno hspnp]
      simp [hlen]
    have hparsed : parseMd5Sums (hs ++ " " ++ ps) m = mapInsert ps hs m := by
      unfold parseMd5Sums
      rw [hscan]
      exact hline
    constructor
    · rw [hparsed]
      unfold mapInsert
      rw [if_pos rfl]
    · intro hnp
      unfold getFileMd5Sums goTrimDotSlash
      rw [hnp]
      simp only [Bool.false_eq_true, if_false]
      rw [hparsed]
      unfold mapInsert
      rw [if_pos rfl]
      rfl
  · intro m line hacc
    unfold md5LineAccepted at hacc
    unfold parseMd5Line
    cases hsplit : goSplitChar ' ' (collapseWS line.data) with
    | nil => rfl
    | cons a gs =>
      cases gs with
      | nil => rfl
      | cons b gs2 =>
        cases gs2 with
        | nil =>
          rw [hsplit] at hacc
          have hlen : ¬(a.length = 32) := by simpa using hacc
          simp [hlen]
        | cons d gs3 => rfl
  · intro mo hh b1 b2
    rfl

/-- Witness for the C4 amended theorem at a concrete md5sums line. -/
theorem parseMd5Sums_amended_witness :
    parseMd5Sums ("d41d8cd98f00b204e9800998ecf8427e" ++ " " ++ "usr/bin/foo")
      emptyStrMap "usr/bin/foo" = some "d41d8cd98f00b204e9800998ecf8427e" ∧
    getFileMd5Sums (parseMd5Sums ("d41d8cd98f00b204e9800998ecf8427e" ++ " " ++
      "usr/bin/foo") emptyStrMap) "usr/bin/foo" = "d41d8cd98f00b204e9800998ecf8427e" := by
  have h := parseMd5Sums_amended.1 emptyStrMap "d41d8cd98f00b204e9800998ecf8427e"
    "usr/bin/foo" (by decide) (by decide) (by decide)
  exact ⟨h.1, h.2 (by decide)⟩

end GoDeb
